import Mathlib

/-
Verification of the msvc-dev-cmd launcher (src/main.rs) against its
natural-language specification.

The Rust source is shallowly embedded below.  Strings are Lean `String`s
(lists of characters); byte streams are `List Nat`; maps built by
`HashMap::insert` are embedded as lookup functions where a later insert
shadows an earlier one.  Rust's `HashSet` has an unspecified iteration
order, so the one place the source iterates a `HashSet`
(`filter_path_value`) is embedded as a relation between the input and every
output the iteration order could produce.
-/

namespace MsvcDevCmd

/-! ## String helpers (embeddings of the Rust std functions used) -/

/-- Embedding of Rust `str::contains(char)`. -/
def containsChar (s : String) (c : Char) : Bool :=
  s.data.contains c

/-- Splitting a character list at the first occurrence of `c`, the list-level
part of Rust `str::split_once(char)`. -/
def splitOnceList (c : Char) : List Char → Option (List Char × List Char)
  | [] => none
  | x :: xs =>
    if x = c then some ([], xs)
    else (splitOnceList c xs).map (fun p => (x :: p.1, p.2))

/-- Embedding of Rust `str::split_once(char)`: split at the first occurrence
of `c`, returning `none` when `c` does not occur. -/
def splitOnce (s : String) (c : Char) : Option (String × String) :=
  (splitOnceList c s.data).map (fun p => (String.mk p.1, String.mk p.2))

/-- Splitting a list on a separator element, the semantics of Rust
`str::split` (for a one-character pattern) and `slice::split`: `n`
separators yield `n + 1` (possibly empty) parts. -/
def splitSep {α : Type} [DecidableEq α] (sep : α) : List α → List (List α)
  | [] => [[]]
  | x :: xs =>
    let r := splitSep sep xs
    if x = sep then [] :: r
    else (x :: r.headD []) :: r.tail

/-- Embedding of Rust `u8::to_ascii_lowercase` at the character level.
`Char.toLower` maps exactly the ASCII range `A`-`Z` down by 32, as the Rust
function does. -/
def asciiLowerChar (c : Char) : Char := Char.toLower c

/-- Embedding of Rust `str::eq_ignore_ascii_case`: equality after
ASCII-lowercasing every character.  (The Rust function compares the UTF-8
bytes pairwise after `u8::to_ascii_lowercase`; since that byte map only
touches the ASCII range, it factors through the character map.) -/
def eqIgnoreAsciiCase (a b : String) : Bool :=
  a.data.map asciiLowerChar == b.data.map asciiLowerChar

/-- Bool-valued check that `pat` occurs contiguously inside `l`, the
list-level part of Rust `str::contains(&str)`. -/
def hasSubList (pat : List Char) : List Char → Bool
  | [] => pat.isEmpty
  | c :: cs => pat.isPrefixOf (c :: cs) || hasSubList pat cs

/-- Embedding of Rust `str::contains(&str)`: substring occurrence. -/
def strContains (s pat : String) : Bool :=
  hasSubList pat.data s.data

/-! ## Constant tables (src/main.rs lines 52-56, 81-87, 237-242) -/

def EDITIONS : List String :=
  ["Enterprise", "Professional", "Community", "Preview", "BuildTools"]

def YEARS : List String := ["2022", "2019", "2017", "2015"]

def PATH_LIKE_VARIABLES : List String := ["PATH", "INCLUDE", "LIB", "LIBPATH"]

def vs_year_version : List (String × String) :=
  [("2022", "17.0"), ("2019", "16.0"), ("2017", "15.0"),
   ("2015", "14.0"), ("2013", "12.0")]

def arch_aliases : List (String × String) :=
  [("win32", "x86"), ("win64", "x64"), ("x86_64", "x64"), ("x86-64", "x64")]

/-- Embedding of `HashMap::get` on a literal table: first entry whose key
matches.  (The Rust tables have distinct keys, so any lookup order agrees
with this one.) -/
def mapGet (m : List (String × String)) (k : String) : Option String :=
  (m.find? (fun p => p.1 == k)).map Prod.snd

/-! ## Path-list normalizer (src/main.rs lines 199-208) -/

/-- Embedding of Rust `name.to_uppercase()` restricted to its ASCII action,
which is all `is_path_variable` compares against. -/
def to_uppercase (s : String) : String := String.mk (s.data.map Char.toUpper)

/-- Embedding of `is_path_variable` (src/main.rs 199-202). -/
def is_path_variable (name : String) : Bool :=
  PATH_LIKE_VARIABLES.any (fun x => x == to_uppercase name)

/-- The entry list `path.split(";")` produced inside `filter_path_value`
(src/main.rs 207). -/
def filter_path_value_entries (path : String) : List String :=
  (splitSep ';' path.data).map String.mk

/-- Embedding of `filter_path_value` (src/main.rs 206-208).  The entries are
collected into a `HashSet` (which deduplicates) and re-emitted in the set's
unspecified iteration order, then joined with ";"; so the function is a
relation between the input and every string some iteration order yields:
any duplicate-free enumeration of the distinct entries. -/
def filterPathValuePossible (path out : String) : Prop :=
  ∃ l : List String, l.Nodup ∧
    (∀ x, x ∈ l ↔ x ∈ filter_path_value_entries path) ∧
    out = String.intercalate ";" l

/-- Deduplication keeping the first occurrence of each entry and preserving
order.  Modelled from the spec: this is what §4.4 says `normalize` does
("removes duplicate entries keeping first occurrence, preserving order"),
stated as a deterministic function to compare against the source's
`HashSet`-based `filter_path_value`. -/
def dedupKeepFirst : List String → List String
  | [] => []
  | x :: xs => x :: (dedupKeepFirst xs).filter (fun y => y ≠ x)

/-- The spec §4.4 `normalize`, built from `dedupKeepFirst`. -/
def specNormalize (path : String) : String :=
  String.intercalate ";" (dedupKeepFirst (filter_path_value_entries path))

/-! ## Transcript splitting (src/main.rs lines 308-320) -/

/-- The form feed byte on which the captured stdout is split
(src/main.rs 315-316). -/
def form_feed : Nat := 0xC

/-- Embedding of `cmd_output_string.split(|num| num == &0xC)`
(src/main.rs 316): the captured stdout bytes split on the form feed. -/
def split_output_parts (stdout : List Nat) : List (List Nat) :=
  splitSep form_feed stdout

/-- Embedding of the three-segment check (src/main.rs 316-327): fail unless
the split yields exactly three parts, otherwise return them as the old
environment, the vcvars output and the new environment.  (The source
message interpolates the captured stderr; the constant message stands for
that parse error here.) -/
def parse_transcript_parts (stdout : List Nat) :
    Except String (List Nat × List Nat × List Nat) :=
  match split_output_parts stdout with
  | [a, b, c] => .ok (a, b, c)
  | _ => .error "could not split the output into pages"

/-! ## Usage-error scan of the middle segment (src/main.rs lines 329-338) -/

/-- The error marker looked for in the vcvars output (src/main.rs 334). -/
def error_marker : String := "[ERROR"

/-- The benign usage-message fragment excluded from the scan
(src/main.rs 334). -/
def benign_usage_sub : String := "Error in script usage. the correct usage is:"

/-- Embedding of the `error_messages` filter (src/main.rs 332-335): lines of
the middle segment containing the error marker but not the benign usage
fragment. -/
def error_messages (vcvars_output : List String) : List String :=
  vcvars_output.filter
    (fun i => strContains i error_marker && !(strContains i benign_usage_sub))

/-- Embedding of the usage-error bail (src/main.rs 336-338). -/
def check_usage_errors (vcvars_output : List String) : Except String Unit :=
  if (error_messages vcvars_output).isEmpty then .ok ()
  else .error ("Invalid parameters\n" ++
    String.intercalate "\n" (error_messages vcvars_output))

/-! ## Environment parsing and diffing (src/main.rs lines 340-392) -/

/-- Lookup model of the `HashMap<&str, &str>` built from the old
environment. -/
abbrev EnvMap : Type := String → Option String

/-- Embedding of `HashMap::insert`: the newer binding shadows. -/
def envInsert (m : EnvMap) (k v : String) : EnvMap :=
  fun x => if x = k then some v else m x

/-- Embedding of the old-environment loop (src/main.rs 341-359): lines
without `=` are skipped, the rest are split at the first `=` and inserted;
a failing split is the `Invalid key=value` bail. -/
def parse_old_environment : List String → EnvMap → Except String EnvMap
  | [], vars => .ok vars
  | i :: rest, vars =>
    if containsChar i '=' then
      match splitOnce i '=' with
      | some (name, old_value) =>
        parse_old_environment rest (envInsert vars name old_value)
      | none => .error ("Invalid key=value in cmd output: " ++ i)
    else parse_old_environment rest vars

/-- Embedding of the update condition (src/main.rs 375):
`old_value.is_none() || !matches!(old_value, Some(v) if
v.eq_ignore_ascii_case(new_value))`. -/
def update_condition (old_value : Option String) (new_value : String) : Bool :=
  old_value.isNone ||
    !(match old_value with
      | some v => eqIgnoreAsciiCase v new_value
      | none => false)

/-- One `set_var` performed by the new-environment loop: the variable name,
the raw value from the transcript, and whether `filter_path_value` is
applied to it before the write (src/main.rs 380-385). -/
structure EnvUpdate where
  name : String
  raw_value : String
  filtered : Bool
deriving DecidableEq, Repr

/-- Embedding of the new-environment loop (src/main.rs 365-392): skip lines
without `=`, split the rest at the first `=`, and emit an update exactly
when the update condition holds; a failing split is the other
`Invalid key=value` bail. -/
def apply_new_environment (old_env_vars : EnvMap) :
    List String → Except String (List EnvUpdate)
  | [] => .ok []
  | i :: rest =>
    if containsChar i '=' then
      match splitOnce i '=' with
      | some (name, new_value) =>
        if update_condition (old_env_vars name) new_value then
          (apply_new_environment old_env_vars rest).map
            (fun us => ⟨name, new_value, is_path_variable name⟩ :: us)
        else apply_new_environment old_env_vars rest
      | none => .error ("Invalid key=value in cmd output: " ++ i)
    else apply_new_environment old_env_vars rest

/-! ## Version selector translation (src/main.rs lines 92-107, 137-145) -/

/-- Embedding of `Constants::vsversion_to_versionnumber` (src/main.rs
92-97): table lookup, `none` when the selector is not a known year. -/
def vsversion_to_versionnumber (vsversion : Option String) : Option String :=
  match vsversion with
  | some v => mapGet vs_year_version v
  | none => none

/-- Embedding of `Constants::vsversion_to_year` (src/main.rs 99-107): find
the year whose version number matches, else return the input.  (The source
iterates a `HashMap`, but the version numbers are pairwise distinct, so
every iteration order selects the same year.) -/
def vsversion_to_year (vsversion : String) : String :=
  match vs_year_version.find? (fun p => p.2 == vsversion) with
  | some p => p.1
  | none => vsversion

/-- Embedding of the version pattern built for the vswhere query
(src/main.rs 138-145): a known year gives a bounded `-version` window, any
other selector gives `-latest`. -/
def version_pattern (vsversion : Option String) : String :=
  match vsversion_to_versionnumber vsversion with
  | some v =>
    let upper_bound := ((splitSep '.' v.data).map String.mk).headD ""
    "-version \"" ++ v ++ "," ++ upper_bound ++ ".9\""
  | none => "-latest"

/-! ## Standard-location fallback (src/main.rs lines 163-180) -/

/-- A filesystem path, modelled as its component list. -/
abbrev FsPath : Type := List String

/-- Embedding of the candidate path built at src/main.rs 171. -/
def standard_location (prog_files : FsPath) (ver ed : String) : FsPath :=
  prog_files ++ ["Microsoft Visual Studio", ver, ed,
    "VC/Auxiliary/Build/vcvarsall.bat"]

/-- Embedding of the year list for the fallback scan (src/main.rs 163-166):
the single year for a given selector, else all known years newest first. -/
def fallback_years (vsversion : Option String) : List String :=
  match vsversion with
  | some v => [vsversion_to_year v]
  | none => YEARS

/-- Embedding of the triple loop over program-files roots, years and
editions (src/main.rs 168-180), with the filesystem abstracted as an
existence predicate: the first existing candidate in loop order is
returned. -/
def find_standard_location (exists_on_disk : FsPath → Bool)
    (program_files : List FsPath) (vsversion : Option String) :
    Option FsPath :=
  (program_files.flatMap (fun pf =>
    (fallback_years vsversion).flatMap (fun ver =>
      EDITIONS.map (fun ed => standard_location pf ver ed)))).find?
    exists_on_disk

/-! ## Architecture normalization and script arguments
(src/main.rs lines 237-283) -/

/-- Embedding of Rust `str::to_lowercase` on its ASCII action: every
character of an `--arch` value is ASCII, where the Unicode lowercasing the
source calls and the per-character ASCII map agree. -/
def to_lowercase (s : String) : String := String.mk (s.data.map asciiLowerChar)

/-- Embedding of the architecture normalization (src/main.rs 245-252):
lowercase, then replace by the alias table entry when there is one. -/
def resolve_arch (arch : String) : String :=
  let arch_lowercase := to_lowercase arch
  match mapGet arch_aliases arch_lowercase with
  | some v => v
  | none => arch_lowercase

/-- Embedding of the positional argument list handed to vcvarsall
(src/main.rs 257-272): the normalized architecture first, then the optional
flags in push order. -/
def vcvars_positional_args (arch : String) (uwp : Bool) (sdk : Option String)
    (toolset : Option String) (spectre : Bool) : List String :=
  let args := [resolve_arch arch]
  let args := if uwp then args ++ ["uwp"] else args
  let args := match sdk with | some v => args ++ [v] | none => args
  let args := match toolset with
    | some v => args ++ ["-vcvars_ver=" ++ v]
    | none => args
  if spectre then args ++ ["-vcvars_spectre_libs=spectre"] else args

/-! ## Child exit status propagation (src/main.rs lines 423-436) -/

/-- The platforms distinguished by the `cfg` blocks in `main`. -/
inductive Platform
  | unix
  | windows
deriving DecidableEq

/-- How the child terminated, as observed through `ExitStatus`. -/
inductive ChildStatus
  | exited (code : Int)
  | signaled (sig : Int)
  | unknown
deriving DecidableEq

/-- Embedding of `ExitStatus::code()`: present exactly on normal exit. -/
def status_code : ChildStatus → Option Int
  | .exited c => some c
  | _ => none

/-- Embedding of `ExitStatus::signal()` (unix): present exactly on
signal-termination. -/
def status_signal : ChildStatus → Option Int
  | .signaled s => some s
  | _ => none

/-- Embedding of the exit-code propagation in `main` (src/main.rs 425-436):
a normal exit code is passed through; otherwise, on unix,
`signal().unwrap_or_else(|| 9) + 128`, and on windows the fixed 127. -/
def launcher_exit_code (p : Platform) (status : ChildStatus) : Int :=
  match status_code status with
  | some i => i
  | none =>
    match p with
    | .unix => (status_signal status).getD 9 + 128
    | .windows => 127

/-! ## Helper lemmas -/

theorem splitSep_ne_nil {α : Type} [DecidableEq α] (sep : α) (l : List α) :
    splitSep sep l ≠ [] := by
  cases l with
  | nil => simp [splitSep]
  | cons x xs =>
    simp only [splitSep]
    split <;> simp

theorem splitSep_length {α : Type} [DecidableEq α] (sep : α) (l : List α) :
    (splitSep sep l).length = l.count sep + 1 := by
  induction l with
  | nil => simp [splitSep]
  | cons x xs ih =>
    simp only [splitSep]
    by_cases h : x = sep
    · subst h
      simp [List.count_cons, ih]
    · rw [if_neg h]
      have hne := splitSep_ne_nil sep xs
      cases hr : splitSep sep xs with
      | nil => exact absurd hr hne
      | cons y ys =>
        rw [hr] at ih
        simp only [List.length_cons] at ih ⊢
        rw [List.count_cons]
        simp [h]
        omega

theorem splitOnceList_isSome {c : Char} {l : List Char}
    (h : l.contains c = true) : ∃ q, splitOnceList c l = some q := by
  induction l with
  | nil => simp [List.contains] at h
  | cons x xs ih =>
    by_cases hx : x = c
    · exact ⟨([], xs), by simp [splitOnceList, hx]⟩
    · have hxs : xs.contains c = true := by
        simp only [List.contains_cons, Bool.or_eq_true, beq_iff_eq] at h
        rcases h with h | h
        · exact absurd h.symm hx
        · exact h
      obtain ⟨q, hq⟩ := ih hxs
      exact ⟨(x :: q.1, q.2), by simp [splitOnceList, hx, hq]⟩

theorem splitOnce_of_containsChar {s : String} {c : Char}
    (h : containsChar s c = true) : ∃ p, splitOnce s c = some p := by
  obtain ⟨q, hq⟩ := splitOnceList_isSome (c := c) (l := s.data) h
  exact ⟨(String.mk q.1, String.mk q.2), by simp [splitOnce, hq]⟩

theorem parse_old_environment_ok (lines : List String) :
    ∀ vars : EnvMap, ∃ m, parse_old_environment lines vars = .ok m := by
  induction lines with
  | nil => exact fun vars => ⟨vars, rfl⟩
  | cons i rest ih =>
    intro vars
    by_cases h : containsChar i '='
    · obtain ⟨⟨name, value⟩, hp⟩ := splitOnce_of_containsChar h
      obtain ⟨m, hm⟩ := ih (envInsert vars name value)
      exact ⟨m, by simp [parse_old_environment, h, hp, hm]⟩
    · obtain ⟨m, hm⟩ := ih vars
      exact ⟨m, by simp [parse_old_environment, h, hm]⟩

theorem apply_new_environment_ok (old : EnvMap) (lines : List String) :
    ∃ us, apply_new_environment old lines = .ok us := by
  induction lines with
  | nil => exact ⟨[], rfl⟩
  | cons i rest ih =>
    obtain ⟨us, hus⟩ := ih
    by_cases h : containsChar i '='
    · obtain ⟨⟨name, value⟩, hp⟩ := splitOnce_of_containsChar h
      by_cases hc : update_condition (old name) value
      · exact ⟨⟨name, value, is_path_variable name⟩ :: us,
          by simp [apply_new_environment, h, hp, hc, hus, Except.map]⟩
      · exact ⟨us, by simp [apply_new_environment, h, hp, hc, hus]⟩
    · exact ⟨us, by simp [apply_new_environment, h, hus]⟩

theorem update_condition_iff (old_value : Option String) (new_value : String) :
    update_condition old_value new_value = true ↔
      (old_value = none ∨
        ∃ v, old_value = some v ∧ eqIgnoreAsciiCase v new_value = false) := by
  cases old_value with
  | none => simp [update_condition]
  | some v => simp [update_condition]

/-! ## C1: order behaviour of the path-list normalizer -/

/-- C1: the claim says `normalize` keeps the first occurrence of each entry
and preserves the relative order of first occurrences.  The source's own
doc comment (src/main.rs 204-205) promises the same, but the function
round-trips the entries through a `HashSet`, whose iteration order is
unspecified: on input "b;a" the code can emit "a;b", while the
order-preserving normalization of "b;a" is "b;a" itself.  The claim is
right about the intent and wrong about the code: a code bug. -/
theorem C1_filter_path_value_order_bug :
    filterPathValuePossible "b;a" "a;b" ∧
    specNormalize "b;a" = "b;a" ∧
    ("a;b" : String) ≠ "b;a" := by
  refine ⟨⟨["a", "b"], by decide, ?_, rfl⟩, rfl, by decide⟩
  intro x
  have h : filter_path_value_entries "b;a" = ["b", "a"] := rfl
  rw [h]
  constructor <;> intro hx <;> simp at hx ⊢ <;> tauto

/-! ## C3: idempotence of a second run -/

/-- C3: the claim says a second run of the pipeline produces no observable
change to path-list variables.  With PATH previously set to the normalized
"a;b", a second run's after-value "a;a;b" (the script re-prepends "a")
passes the update condition, so the variable is written again — and
`filter_path_value` can write the shuffled "b;a", an observable change.
The spec-modelled order-preserving normalize would have written "a;b" back
unchanged, so the claim is right about the intent and a `HashSet` iteration
order breaks it: the same code bug as C1. -/
theorem C3_second_run_not_idempotent :
    update_condition (some "a;b") "a;a;b" = true ∧
    filterPathValuePossible "a;a;b" "b;a" ∧
    ("b;a" : String) ≠ "a;b" ∧
    specNormalize "a;a;b" = "a;b" := by
  refine ⟨by decide, ⟨["b", "a"], by decide, ?_, rfl⟩, by decide, rfl⟩
  intro x
  have h : filter_path_value_entries "a;a;b" = ["a", "a", "b"] := rfl
  rw [h]
  constructor <;> intro hx <;> simp at hx ⊢ <;> tauto

/-! ## C4: the transcript must split into exactly three segments -/

/-- C4: splitting the captured stdout on the form-feed byte yields exactly
three segments (equivalently, exactly two separator bytes) precisely when
parsing succeeds; any other segment count — for example the two-segment and
four-segment byte strings below — is rejected with a parse error. -/
theorem C4_transcript_split_exactly_three :
    (∀ stdout : List Nat,
      (∃ r, parse_transcript_parts stdout = .ok r) ↔
        (split_output_parts stdout).length = 3) ∧
    (∀ stdout : List Nat,
      (split_output_parts stdout).length = stdout.count form_feed + 1) ∧
    (∃ e, parse_transcript_parts [1, 12, 2] = .error e) ∧
    (∃ e, parse_transcript_parts [1, 12, 2, 12, 3, 12, 4] = .error e) ∧
    parse_transcript_parts [1, 12, 2, 12, 3] = .ok ([1], [2], [3]) := by
  refine ⟨?_, fun stdout => splitSep_length form_feed stdout,
    ⟨_, rfl⟩, ⟨_, rfl⟩, rfl⟩
  intro stdout
  unfold parse_transcript_parts
  cases h1 : split_output_parts stdout with
  | nil => simp
  | cons a t1 =>
    cases t1 with
    | nil => simp
    | cons b t2 =>
      cases t2 with
      | nil => simp
      | cons c t3 =>
        cases t3 with
        | nil => simp
        | cons d t4 =>
          simp only [List.length_cons]
          constructor
          · rintro ⟨r, hr⟩
            cases hr
          · intro hlen
            omega

/-! ## C5: usage-error scan of the middle segment -/

/-- C5 counterexample: the claim says any line with the error marker other
than the one exact benign usage line must make the Differ fail.  The code
excludes every line merely containing the benign usage fragment: here are
two distinct marker-carrying lines, both accepted, so at least one of them
is a line other than the exact benign line whose marker raises no error. -/
theorem C5_counterexample_marker_line_accepted :
    ("[ERROR] one Error in script usage. the correct usage is: x" : String) ≠
      "[ERROR] two Error in script usage. the correct usage is: y" ∧
    strContains "[ERROR] one Error in script usage. the correct usage is: x"
      error_marker = true ∧
    strContains "[ERROR] two Error in script usage. the correct usage is: y"
      error_marker = true ∧
    check_usage_errors
      ["[ERROR] one Error in script usage. the correct usage is: x"] = .ok () ∧
    check_usage_errors
      ["[ERROR] two Error in script usage. the correct usage is: y"] = .ok () :=
  ⟨by decide, by decide, by decide, rfl, rfl⟩

/-- C5 amended: a line of the middle segment is benign exactly when it
contains the usage fragment "Error in script usage. the correct usage
is:" (containment, not equality with one exact line); the scan succeeds iff
every line carrying the error marker contains that fragment, and otherwise
fails with "Invalid parameters" listing the offending lines verbatim. -/
theorem C5_amended_usage_error_scan (lines : List String) :
    (check_usage_errors lines = .ok () ↔
      ∀ i ∈ lines, strContains i error_marker = true →
        strContains i benign_usage_sub = true) ∧
    (error_messages lines ≠ [] →
      check_usage_errors lines = .error ("Invalid parameters\n" ++
        String.intercalate "\n" (error_messages lines))) := by
  have hempty : error_messages lines = [] ↔
      ∀ i ∈ lines, strContains i error_marker = true →
        strContains i benign_usage_sub = true := by
    unfold error_messages
    rw [List.filter_eq_nil_iff]
    constructor
    · intro h i hi hm
      have hh := h i hi
      simp only [Bool.and_eq_true, Bool.not_eq_true', not_and,
        Bool.not_eq_false] at hh
      exact hh hm
    · intro h i hi
      simp only [Bool.and_eq_true, Bool.not_eq_true', not_and,
        Bool.not_eq_false]
      exact h i hi
  by_cases h : error_messages lines = []
  · refine ⟨?_, fun hne => absurd h hne⟩
    have hok : check_usage_errors lines = .ok () := by
      unfold check_usage_errors
      rw [if_pos (by simp [h])]
    rw [hok]
    simp only [true_iff]
    exact hempty.mp h
  · have herr : check_usage_errors lines = .error ("Invalid parameters\n" ++
        String.intercalate "\n" (error_messages lines)) := by
      unfold check_usage_errors
      rw [if_neg (by simp [h])]
    refine ⟨?_, fun _ => herr⟩
    rw [herr]
    constructor
    · intro hc
      cases hc
    · intro hall
      exact absurd (hempty.mpr hall) h

/-- C5 amended, witnessed at a middle segment with one offending line. -/
theorem C5_amended_usage_error_scan_witness :
    check_usage_errors ["[ERROR] bad parameter"] =
      .error ("Invalid parameters\n" ++
        String.intercalate "\n" (error_messages ["[ERROR] bad parameter"])) :=
  (C5_amended_usage_error_scan ["[ERROR] bad parameter"]).2 (by decide)

/-! ## C6: version selector translation -/

/-- C6 counterexample: the claim says a selector absent from the year table
passes through unchanged into the locator query.  On the dotted version
selector "16.0" (not a table key) the table lookup yields `none` and the
query pattern collapses to "-latest" — the selector does not appear in the
query at all. -/
theorem C6_counterexample_unknown_selector_dropped :
    vsversion_to_versionnumber (some "16.0") = none ∧
    version_pattern (some "16.0") = "-latest" ∧
    strContains (version_pattern (some "16.0")) "16.0" = false :=
  ⟨rfl, rfl, by decide⟩

/-- C6 amended: a selector present in the year table is translated to its
numeric version identifier inside a bounded "-version" window; a selector
not in the table is not passed through but dropped, the query falling back
to "-latest" (the raw selector is only used later by the
standard-locations fallback). -/
theorem C6_amended_version_pattern :
    version_pattern (some "2022") = "-version \"17.0,17.9\"" ∧
    version_pattern (some "2019") = "-version \"16.0,16.9\"" ∧
    version_pattern (some "2017") = "-version \"15.0,15.9\"" ∧
    version_pattern (some "2015") = "-version \"14.0,14.9\"" ∧
    version_pattern (some "2013") = "-version \"12.0,12.9\"" ∧
    (∀ v, mapGet vs_year_version v = none →
      version_pattern (some v) = "-latest") ∧
    version_pattern none = "-latest" := by
  refine ⟨rfl, rfl, rfl, rfl, rfl, ?_, rfl⟩
  intro v h
  simp [version_pattern, vsversion_to_versionnumber, h]

/-- C6 amended, witnessed at a selector outside the table. -/
theorem C6_amended_version_pattern_witness :
    version_pattern (some "15.4") = "-latest" :=
  C6_amended_version_pattern.2.2.2.2.2.1 "15.4" (by decide)

/-! ## C8: exit status propagation -/

/-- C8: a normally exited child's code is propagated unchanged on every
platform; a signal-terminated child on unix exits the launcher with 128
plus the signal number; on windows, where the termination reason carries no
code, the launcher exits with the fixed fallback 127. -/
theorem C8_exit_code_propagation :
    (∀ (p : Platform) (c : Int), launcher_exit_code p (.exited c) = c) ∧
    (∀ s : Int, launcher_exit_code .unix (.signaled s) = 128 + s) ∧
    (∀ s : Int, launcher_exit_code .windows (.signaled s) = 127) ∧
    launcher_exit_code .windows .unknown = 127 := by
  refine ⟨fun p c => rfl, fun s => ?_, fun s => rfl, rfl⟩
  show s + 128 = 128 + s
  omega

/-! ## C2: the environment diff condition -/

/-- C2: an update for a name/value pair parsed from the after-environment
is emitted if and only if the name is absent from the before-environment or
its before-value differs from the after-value under case-insensitive
comparison; a pair differing only in value casing is excluded, a changed or
new variable included. -/
theorem C2_env_update_iff (old : EnvMap) (lines : List String)
    (us : List EnvUpdate) (h : apply_new_environment old lines = .ok us)
    (name value : String) (b : Bool) :
    EnvUpdate.mk name value b ∈ us ↔
      ((∃ i ∈ lines, containsChar i '=' = true ∧
          splitOnce i '=' = some (name, value)) ∧
        (old name = none ∨
          ∃ v, old name = some v ∧ eqIgnoreAsciiCase v value = false) ∧
        b = is_path_variable name) := by
  induction lines generalizing us with
  | nil =>
    have hus : us = [] := by
      have : (Except.ok [] : Except String (List EnvUpdate)) = .ok us := h
      cases this
      rfl
    subst hus
    simp
  | cons i rest ih =>
    by_cases hc : containsChar i '='
    · obtain ⟨⟨n, v⟩, hp⟩ := splitOnce_of_containsChar hc
      by_cases hu : update_condition (old n) v
      · obtain ⟨us', hus'⟩ := apply_new_environment_ok old rest
        have hh : apply_new_environment old (i :: rest) =
            .ok (⟨n, v, is_path_variable n⟩ :: us') := by
          simp [apply_new_environment, hc, hp, hu, hus', Except.map]
        rw [hh] at h
        have hus : us = ⟨n, v, is_path_variable n⟩ :: us' := by
          cases h
          rfl
        subst hus
        rw [List.mem_cons, ih us' hus']
        constructor
        · rintro (heq | ⟨⟨j, hj, hjc, hjs⟩, hcond, hb⟩)
          · injection heq with h1 h2 h3
            subst h1
            subst h2
            refine ⟨⟨i, List.mem_cons_self i rest, hc, hp⟩, ?_, h3⟩
            exact (update_condition_iff _ _).mp hu
          · exact ⟨⟨j, List.mem_cons_of_mem _ hj, hjc, hjs⟩, hcond, hb⟩
        · rintro ⟨⟨j, hj, hjc, hjs⟩, hcond, hb⟩
          rcases List.mem_cons.mp hj with rfl | hjr
          · rw [hp] at hjs
            injection hjs with hnv
            injection hnv with hn hv
            subst hn
            subst hv
            left
            rw [hb]
          · right
            exact ⟨⟨j, hjr, hjc, hjs⟩, hcond, hb⟩
      · have hh : apply_new_environment old (i :: rest) =
            apply_new_environment old rest := by
          simp [apply_new_environment, hc, hp, hu]
        rw [hh] at h
        rw [ih us h]
        constructor
        · rintro ⟨⟨j, hj, hjc, hjs⟩, hcond, hb⟩
          exact ⟨⟨j, List.mem_cons_of_mem _ hj, hjc, hjs⟩, hcond, hb⟩
        · rintro ⟨⟨j, hj, hjc, hjs⟩, hcond, hb⟩
          rcases List.mem_cons.mp hj with rfl | hjr
          · rw [hp] at hjs
            injection hjs with hnv
            injection hnv with hn hv
            subst hn
            subst hv
            exact absurd ((update_condition_iff _ _).mpr hcond) hu
          · exact ⟨⟨j, hjr, hjc, hjs⟩, hcond, hb⟩
    · have hh : apply_new_environment old (i :: rest) =
          apply_new_environment old rest := by
        simp [apply_new_environment, hc]
      rw [hh] at h
      rw [ih us h]
      constructor
      · rintro ⟨⟨j, hj, hjc, hjs⟩, hcond, hb⟩
        exact ⟨⟨j, List.mem_cons_of_mem _ hj, hjc, hjs⟩, hcond, hb⟩
      · rintro ⟨⟨j, hj, hjc, hjs⟩, hcond, hb⟩
        rcases List.mem_cons.mp hj with rfl | hjr
        · exact absurd hjc hc
        · exact ⟨⟨j, hjr, hjc, hjs⟩, hcond, hb⟩

/-- Before-environment for the C2 witness, the map A=1, B=2 of the spec's
diff example. -/
def c2_before : EnvMap :=
  fun k => if k = "A" then some "1" else if k = "B" then some "2" else none

/-- C2, witnessed on the spec's diff example: after-lines A=1, B=3, C=4
against before-map A=1, B=2 include the new C and exclude the unchanged
A. -/
theorem C2_env_update_iff_witness :
    (EnvUpdate.mk "C" "4" false ∈
      [EnvUpdate.mk "B" "3" false, EnvUpdate.mk "C" "4" false]) ∧
    EnvUpdate.mk "A" "1" false ∉
      [EnvUpdate.mk "B" "3" false, EnvUpdate.mk "C" "4" false] := by
  have hap : apply_new_environment c2_before ["A=1", "B=3", "C=4"] =
      .ok [EnvUpdate.mk "B" "3" false, EnvUpdate.mk "C" "4" false] := rfl
  constructor
  · exact (C2_env_update_iff c2_before _ _ hap "C" "4" false).mpr
      ⟨⟨"C=4", by simp, by decide, by decide⟩, Or.inl rfl, by decide⟩
  · intro hmem
    obtain ⟨_, hcond, _⟩ :=
      (C2_env_update_iff c2_before _ _ hap "A" "1" false).mp hmem
    rcases hcond with h1 | ⟨v, hv, hne⟩
    · exact absurd h1 (by decide)
    · rw [show c2_before "A" = some "1" from rfl] at hv
      injection hv with hv
      subst hv
      exact absurd hne (by decide)

/-! ## C9: the Invalid key=value branches are unreachable -/

/-- C9: every line reaching the first-equals split was already checked to
contain an equals sign, and a split on a contained character always
succeeds, so both transcript-segment parsers always return `.ok` and the
"Invalid key=value in cmd output" bail-outs are unreachable. -/
theorem C9_invalid_key_value_unreachable :
    (∀ (lines : List String) (vars : EnvMap),
      ∃ m, parse_old_environment lines vars = .ok m) ∧
    (∀ (old : EnvMap) (lines : List String),
      ∃ us, apply_new_environment old lines = .ok us) :=
  ⟨fun lines vars => parse_old_environment_ok lines vars,
   fun old lines => apply_new_environment_ok old lines⟩

/-! ## C7: fallback search ordering -/

theorem standard_location_inj (pf : FsPath) (y1 e1 y2 e2 : String) :
    standard_location pf y1 e1 = standard_location pf y2 e2 ↔
      y1 = y2 ∧ e1 = e2 := by
  unfold standard_location
  constructor
  · intro h
    have h2 := List.append_cancel_left h
    simp only [List.cons.injEq] at h2
    exact ⟨h2.2.1, h2.2.2.1⟩
  · rintro ⟨rfl, rfl⟩
    rfl

/-- Program-files roots for the C7 counterexample. -/
def c7_root_x86 : FsPath := ["C:", "Program Files (x86)"]

def c7_root_64 : FsPath := ["C:", "Program Files"]

/-- Filesystem for the C7 counterexample: exactly a 2019/Professional
candidate under the first root and a 2022/Community candidate under the
second root exist. -/
def c7_disk (p : FsPath) : Bool :=
  p == standard_location c7_root_x86 "2019" "Professional" ||
  p == standard_location c7_root_64 "2022" "Community"

/-- C7 counterexample: the claim says a newer-year candidate is preferred
over an older-year one regardless of base directory.  But the scan loops
over program-files roots outermost: with only a 2019/Professional match
under the first root and a 2022/Community match under the second, the
2019 candidate is returned. -/
theorem C7_counterexample_root_outranks_year :
    find_standard_location c7_disk [c7_root_x86, c7_root_64] none =
      some (standard_location c7_root_x86 "2019" "Professional") ∧
    c7_disk (standard_location c7_root_x86 "2019" "Professional") = true ∧
    c7_disk (standard_location c7_root_64 "2022" "Community") = true ∧
    standard_location c7_root_x86 "2019" "Professional" ≠
      standard_location c7_root_64 "2022" "Community" :=
  ⟨rfl, by decide, by decide, by decide⟩

/-- C7 amended: years are tried newest-first only within one program-files
root (the roots are the outermost loop).  For candidates under the same
root the claim holds: with only a 2019/Professional and a 2022/Community
candidate under a single root, the 2022 one is returned regardless of the
edition order. -/
theorem C7_amended_year_priority_within_root (pf : FsPath)
    (fs : FsPath → Bool)
    (hfs : ∀ p, fs p = true ↔
      (p = standard_location pf "2019" "Professional" ∨
        p = standard_location pf "2022" "Community")) :
    find_standard_location fs [pf] none =
      some (standard_location pf "2022" "Community") := by
  have hne : ∀ y e : String,
      ((y, e) : String × String) ≠ ("2019", "Professional") →
      ((y, e) : String × String) ≠ ("2022", "Community") →
      fs (standard_location pf y e) = false := by
    intro y e h1 h2
    rw [Bool.eq_false_iff]
    intro hc
    rcases (hfs _).mp hc with h | h
    · rw [standard_location_inj] at h
      exact h1 (by simp [h.1, h.2])
    · rw [standard_location_inj] at h
      exact h2 (by simp [h.1, h.2])
  have h1 : fs (standard_location pf "2022" "Enterprise") = false :=
    hne _ _ (by decide) (by decide)
  have h2 : fs (standard_location pf "2022" "Professional") = false :=
    hne _ _ (by decide) (by decide)
  have htrue : fs (standard_location pf "2022" "Community") = true :=
    (hfs _).mpr (Or.inr rfl)
  show List.find? fs
      (standard_location pf "2022" "Enterprise" ::
        standard_location pf "2022" "Professional" ::
        standard_location pf "2022" "Community" :: _) =
    some (standard_location pf "2022" "Community")
  rw [List.find?_cons_of_neg _ (by simp [h1]),
    List.find?_cons_of_neg _ (by simp [h2]),
    List.find?_cons_of_pos _ htrue]

/-- Root and filesystem for the C7 witness: the two candidates of the
spec's example under one shared root. -/
def c7w_disk (p : FsPath) : Bool :=
  p == standard_location ["R"] "2019" "Professional" ||
  p == standard_location ["R"] "2022" "Community"

/-- C7 amended, witnessed at a concrete single-root filesystem. -/
theorem C7_amended_year_priority_within_root_witness :
    find_standard_location c7w_disk [["R"]] none =
      some (standard_location ["R"] "2022" "Community") :=
  C7_amended_year_priority_within_root ["R"] c7w_disk
    (by intro p; simp [c7w_disk])

/-! ## C10: architecture lowercasing -/

theorem toNat_toLower (c : Char) :
    (Char.toLower c).toNat =
      if 65 ≤ c.toNat ∧ c.toNat ≤ 90 then c.toNat + 32 else c.toNat := by
  unfold Char.toLower
  by_cases h : 65 ≤ c.toNat ∧ c.toNat ≤ 90
  · rw [if_pos ⟨h.1, h.2⟩, if_pos h]
    have hv : (c.toNat + 32).isValidChar := Or.inl (by omega)
    unfold Char.ofNat
    rw [dif_pos hv]
    rfl
  · rw [if_neg (by exact fun hc => h ⟨hc.1, hc.2⟩), if_neg h]

theorem asciiLowerChar_not_upper (c : Char) :
    ¬(65 ≤ (asciiLowerChar c).toNat ∧ (asciiLowerChar c).toNat ≤ 90) := by
  unfold asciiLowerChar
  rw [toNat_toLower]
  split <;> omega

theorem resolve_arch_eq_of_alias {arch v : String}
    (hm : mapGet arch_aliases (to_lowercase arch) = some v) :
    resolve_arch arch = v := by
  simp [resolve_arch, hm]

theorem resolve_arch_eq_of_no_alias {arch : String}
    (hm : mapGet arch_aliases (to_lowercase arch) = none) :
    resolve_arch arch = to_lowercase arch := by
  simp [resolve_arch, hm]

theorem resolve_arch_no_upper (arch : String) :
    ∀ c ∈ (resolve_arch arch).data, ¬(65 ≤ c.toNat ∧ c.toNat ≤ 90) := by
  cases hm : mapGet arch_aliases (to_lowercase arch) with
  | some v =>
    rw [resolve_arch_eq_of_alias hm]
    have hv : ∃ p ∈ arch_aliases, p.2 = v := by
      unfold mapGet at hm
      cases hf : List.find? (fun p => p.1 == to_lowercase arch) arch_aliases with
      | none =>
        rw [hf] at hm
        cases hm
      | some p =>
        rw [hf] at hm
        simp only [Option.map_some', Option.some.injEq] at hm
        exact ⟨p, List.mem_of_find?_eq_some hf, hm⟩
    obtain ⟨p, hp, rfl⟩ := hv
    fin_cases hp <;> decide
  | none =>
    rw [resolve_arch_eq_of_no_alias hm]
    intro c hc
    unfold to_lowercase at hc
    simp only [List.mem_map] at hc
    obtain ⟨a, _, rfl⟩ := hc
    exact asciiLowerChar_not_upper a

/-- C10: the architecture handed to the configuration script as its first
positional argument is the ASCII-lowercased input, routed through the
alias table when the lowercased input is a key; the result never contains
an ASCII uppercase letter.  (Rust `str::to_lowercase` is Unicode-aware; the
embedding covers inputs of ASCII characters, where the per-character ASCII
map it is modelled by agrees with it.) -/
theorem C10_arch_lowercased (arch : String) (uwp : Bool) (sdk : Option String)
    (toolset : Option String) (spectre : Bool)
    (_hascii : ∀ c ∈ arch.data, c.toNat < 128) :
    (vcvars_positional_args arch uwp sdk toolset spectre).head? =
      some (resolve_arch arch) ∧
    (∀ c ∈ (resolve_arch arch).data, ¬(65 ≤ c.toNat ∧ c.toNat ≤ 90)) ∧
    resolve_arch "Win32" = "x86" ∧ resolve_arch "WIN64" = "x64" ∧
    resolve_arch "X86_64" = "x64" ∧ resolve_arch "x86-64" = "x64" ∧
    resolve_arch "X64" = "x64" ∧ resolve_arch "ARM64" = "arm64" := by
  refine ⟨?_, resolve_arch_no_upper arch, by decide, by decide, by decide,
    by decide, by decide, by decide⟩
  unfold vcvars_positional_args
  cases uwp <;> cases sdk <;> cases toolset <;> cases spectre <;> rfl

/-- C10, witnessed at the uppercase canonical name "X64" with every
optional flag set. -/
theorem C10_arch_lowercased_witness :
    (vcvars_positional_args "X64" true (some "10.0.22621.0") (some "14.29")
      true).head? = some (resolve_arch "X64") ∧
    resolve_arch "X64" = "x64" :=
  ⟨(C10_arch_lowercased "X64" true (some "10.0.22621.0") (some "14.29") true
      (by decide)).1,
   (C10_arch_lowercased "X64" true none none false (by decide)).2.2.2.2.2.2.1⟩

end MsvcDevCmd
